import Mathlib

/-!
Verification of the graph-construction-and-centrality engine of
`build_power_brokers.py`: node/edge tables are turned into directed graph
views and normalized closeness centrality is computed per view, row-aligned
with the input node table.  The source delegates adjacency storage, edge
validation and the closeness computation itself to an external graph
library; those parts are modelled from the specification (§4.2, §4.4, §7),
as the spec itself mandates a from-scratch BFS-based engine with exactly
these semantics.  Floating-point results are modelled exactly by ℚ.
-/

namespace PowerBrokers

/-- Directionality mode for closeness, the CLI choices `out`, `in`, `all`.
The `in` mode is spelled `inn` because `in` is a reserved word. -/
inductive Mode where
  | out
  | inn
  | all
deriving DecidableEq, Repr

/-- One row of the edge table: `source`, `target` and the `type` category
column (the road-exclusion filter key). -/
structure Edge where
  source : String
  target : String
  type : String
deriving DecidableEq, Repr

/-- Modelled from the spec: the fatal error taxonomy of §7.  The source
surfaces these through the graph library and the table library, whose code
is not part of this repository. -/
inductive EngineError where
  | UnknownIdentifier (id : String)
  | MisalignedResult
deriving DecidableEq, Repr

/-- A directed graph store: vertex names in node-table row order (a vertex's
index is its list position) plus the resolved edge list as ordered index
pairs, duplicates retained. -/
structure Graph where
  ids : List String
  edges : List (Nat × Nat)
deriving DecidableEq, Repr

/-- Identifier registry lookup: the index of the first occurrence of `s` in
the node id column, `none` when the identifier was never registered. -/
def index_of (ids : List String) (s : String) : Option Nat :=
  ids.findIdx? (fun t => t == s)

/-- Modelled from the spec: resolving one edge through the identifier
registry; an endpoint absent from the node table is the fatal
`UnknownIdentifier` error of §7 (the source delegates this check to the
graph library's name lookup, which likewise aborts). -/
def resolveEdge (ids : List String) (e : Edge) : Except EngineError (Nat × Nat) :=
  match index_of ids e.source, index_of ids e.target with
  | some a, some b => Except.ok (a, b)
  | none, _ => Except.error (EngineError.UnknownIdentifier e.source)
  | some _, none => Except.error (EngineError.UnknownIdentifier e.target)

/-- Resolve every edge in order; the first unknown identifier aborts. -/
def resolveAll (ids : List String) : List Edge → Except EngineError (List (Nat × Nat))
  | [] => Except.ok []
  | e :: rest =>
    match resolveEdge ids e with
    | Except.error err => Except.error err
    | Except.ok p =>
      match resolveAll ids rest with
      | Except.error err => Except.error err
      | Except.ok ps => Except.ok (p :: ps)

/-- `build_graph` from the source: vertices are the node table's `id` column
in row order, edges are the `(source, target)` pairs resolved to indices. -/
def build_graph (nodes : List String) (edges : List Edge) : Except EngineError Graph :=
  match resolveAll nodes edges with
  | Except.error err => Except.error err
  | Except.ok resolved => Except.ok { ids := nodes, edges := resolved }

/-- Reverse every edge (used for the `in` and `all` directionality modes). -/
def swapEdges (E : List (Nat × Nat)) : List (Nat × Nat) :=
  E.map (fun p => (p.2, p.1))

/-- Modelled from the spec: the edge set a BFS actually traverses under a
mode — forward adjacency for `out`, reverse adjacency for `in`, their union
treated as undirected for `all` (§4.4). -/
def orient (E : List (Nat × Nat)) : Mode → List (Nat × Nat)
  | Mode.out => E
  | Mode.inn => swapEdges E
  | Mode.all => E ++ swapEdges E

/-- Modelled from the spec: `reachb E n v u` decides whether a directed walk
of length at most `n` leads from `v` to `u` along the edge list `E`. -/
def reachb (E : List (Nat × Nat)) : Nat → Nat → Nat → Bool
  | 0, v, u => u == v
  | n + 1, v, u =>
    reachb E n v u || E.any (fun e => reachb E n v e.1 && e.2 == u)

/-- Modelled from the spec: the unweighted BFS hop distance from `v` to `u`
in a graph on `N` nodes — the least walk length, searched up to `N - 1`
(a shortest path in an `N`-node graph has fewer than `N` edges);
`none` when `u` is unreachable from `v`. -/
def hopDist (E : List (Nat × Nat)) (N v u : Nat) : Option Nat :=
  (List.range N).find? (fun n => reachb E n v u)

/-- Modelled from the spec: `R(v)`, the nodes reachable from `v` under the
chosen orientation, excluding `v` itself (§4.4). -/
def reachSet (E : List (Nat × Nat)) (N v : Nat) : List Nat :=
  (List.range N).filter (fun u => u != v && (hopDist E N v u).isSome)

/-- Modelled from the spec: `sum_{u in R(v)} d(v,u)`, the total hop distance
from `v` to its reachable peers. -/
def distSum (E : List (Nat × Nat)) (N v : Nat) : Nat :=
  ((reachSet E N v).map (fun u => (hopDist E N v u).getD 0)).sum

/-- Modelled from the spec: the normalized closeness score of §4.4 —
`0` when `R(v)` is empty, otherwise
`(|R(v)| / (N - 1)) * (|R(v)| / sum of distances)`. -/
def closenessScore (E : List (Nat × Nat)) (N v : Nat) : ℚ :=
  let r := (reachSet E N v).length
  if r = 0 then 0
  else ((r : ℚ) / ((N : ℚ) - 1)) * ((r : ℚ) / ((distSum E N v : ℚ)))

/-- `directed_closeness` from the source: one normalized closeness score per
vertex index, in index order, under the given directionality mode. -/
def directed_closeness (g : Graph) (mode : Mode) : List ℚ :=
  (List.range g.ids.length).map
    (fun v => closenessScore (orient g.edges mode) g.ids.length v)

/-- One row of the node table: the `id` column plus passthrough attribute
columns (opaque to the engine). -/
structure NodeRow where
  id : String
  attrs : List String
deriving DecidableEq, Repr

/-- One row of the output table: the original node columns plus the two
score columns added by `main`. -/
structure OutRow where
  id : String
  attrs : List String
  closeness_all_edges : ℚ
  closeness_no_road_edges : ℚ
deriving DecidableEq, Repr

/-- Modelled from the spec: the score assembler (§4.5) — one output row per
node row in input order, carrying the node's original columns and one score
column per view; a score vector whose length differs from the node count is
the fatal `MisalignedResult` error (the source surfaces it through the table
library's length check on column assignment). -/
def assemble (nodes : List NodeRow) (r1 r2 : List ℚ) : Except EngineError (List OutRow) :=
  if r1.length = nodes.length ∧ r2.length = nodes.length then
    Except.ok ((nodes.zip (r1.zip r2)).map
      (fun p =>
        { id := p.1.id, attrs := p.1.attrs,
          closeness_all_edges := p.2.1,
          closeness_no_road_edges := p.2.2 }))
  else Except.error EngineError.MisalignedResult

/-- `main` from the source (the engine pipeline; file I/O and argument
parsing elided): build the all-edges view and the view excluding edges with
`type = "road"`, score both with the one supplied mode, and append both
score columns to the node table. -/
def main (nodes : List NodeRow) (edges : List Edge) (mode : Mode) :
    Except EngineError (List OutRow) :=
  match build_graph (nodes.map NodeRow.id) edges with
  | Except.error err => Except.error err
  | Except.ok g_all =>
    match build_graph (nodes.map NodeRow.id)
        (edges.filter (fun e => e.type != "road")) with
    | Except.error err => Except.error err
    | Except.ok g_no_road =>
      assemble nodes (directed_closeness g_all mode) (directed_closeness g_no_road mode)

/-- The directed cycle graph on `k` nodes: node `i` points to `(i+1) % k`. -/
def cycleGraph (k : Nat) : Graph :=
  { ids := (List.range k).map (fun i => toString i),
    edges := (List.range k).map (fun i => (i, (i + 1) % k)) }

/-! ## Basic lemmas about the BFS distance machinery -/

theorem reachb_zero_iff (E : List (Nat × Nat)) (v u : Nat) :
    reachb E 0 v u = true ↔ u = v := by
  simp [reachb]

theorem hopDist_reachb (E : List (Nat × Nat)) (N v u d : Nat)
    (h : hopDist E N v u = some d) : reachb E d v u = true := by
  have h' : (List.range N).find? (fun n => reachb E n v u) = some d := h
  have h2 := List.find?_some h'
  simpa using h2

theorem hopDist_pos (E : List (Nat × Nat)) (N v u d : Nat)
    (h : hopDist E N v u = some d) (hne : u ≠ v) : 1 ≤ d := by
  rcases Nat.eq_zero_or_pos d with h0 | h1
  · subst h0
    have hr := hopDist_reachb E N v u 0 h
    rw [reachb_zero_iff] at hr
    exact absurd hr hne
  · exact h1

theorem mem_reachSet (E : List (Nat × Nat)) (N v u : Nat) :
    u ∈ reachSet E N v ↔ u < N ∧ u ≠ v ∧ (hopDist E N v u).isSome := by
  simp [reachSet, List.mem_filter, List.mem_range, and_assoc]

theorem reachSet_nodup (E : List (Nat × Nat)) (N v : Nat) :
    (reachSet E N v).Nodup :=
  (List.nodup_range N).filter _

theorem length_le_distSum (E : List (Nat × Nat)) (N v : Nat) :
    (reachSet E N v).length ≤ distSum E N v := by
  have h1 : ∀ x ∈ (reachSet E N v).map (fun u => (hopDist E N v u).getD 0), 1 ≤ x := by
    intro x hx
    rcases List.mem_map.mp hx with ⟨u, hu, rfl⟩
    rcases (mem_reachSet E N v u).mp hu with ⟨-, hne, hsome⟩
    rcases Option.isSome_iff_exists.mp hsome with ⟨d, hd⟩
    rw [hd]
    simpa using hopDist_pos E N v u d hd hne
  calc (reachSet E N v).length
      = ((reachSet E N v).map (fun u => (hopDist E N v u).getD 0)).length := by
        rw [List.length_map]
    _ ≤ distSum E N v := List.length_le_sum_of_one_le _ h1

theorem reachSet_length_le (E : List (Nat × Nat)) (N v : Nat) (hv : v < N) :
    (reachSet E N v).length ≤ N - 1 := by
  have hnd := reachSet_nodup E N v
  have hsub : (reachSet E N v).toFinset ⊆ (Finset.range N).erase v := by
    intro u hu
    rcases (mem_reachSet E N v u).mp (List.mem_toFinset.mp hu) with ⟨hlt, hne, -⟩
    exact Finset.mem_erase.mpr ⟨hne, Finset.mem_range.mpr hlt⟩
  have hcard := Finset.card_le_card hsub
  rw [List.toFinset_card_of_nodup hnd] at hcard
  rwa [Finset.card_erase_of_mem (Finset.mem_range.mpr hv), Finset.card_range] at hcard

/-- C2: a node with an empty reachable set under the chosen mode scores
exactly `0`; in particular every node of a single-node graph (under every
mode, whatever edges are present) scores `0`. -/
theorem closeness_zero_on_empty_reach :
    (∀ (E : List (Nat × Nat)) (N v : Nat),
      reachSet E N v = [] → closenessScore E N v = 0) ∧
    (∀ (s : String) (E : List (Nat × Nat)) (mode : Mode),
      directed_closeness { ids := [s], edges := E } mode = [0]) := by
  constructor
  · intro E N v h
    simp [closenessScore, h]
  · intro s E mode
    have h : reachSet (orient E mode) 1 0 = [] := by
      simp [reachSet, List.range_succ]
    simp [directed_closeness, List.range_succ, closenessScore, h]

/-- Witness for C2 at a concrete input: the empty graph on two nodes gives
node `0` an empty reachable set, hence score `0`. -/
theorem closeness_zero_on_empty_reach_witness :
    closenessScore [] 2 0 = 0 :=
  closeness_zero_on_empty_reach.1 [] 2 0 (by decide)

/-- C8: assembling score vectors whose length differs from the node count
fails with the `MisalignedResult` error. -/
theorem assemble_misaligned (nodes : List NodeRow) (r1 r2 : List ℚ)
    (h : r1.length ≠ nodes.length ∨ r2.length ≠ nodes.length) :
    assemble nodes r1 r2 = Except.error EngineError.MisalignedResult := by
  have hcond : ¬(r1.length = nodes.length ∧ r2.length = nodes.length) := by
    rcases h with h | h
    · exact fun hc => h hc.1
    · exact fun hc => h hc.2
  simp [assemble, hcond]

/-- Witness for C8 at a concrete input: one score against two node rows. -/
theorem assemble_misaligned_witness :
    assemble [{ id := "a", attrs := [] }, { id := "b", attrs := [] }] [1] [1, 0] =
      Except.error EngineError.MisalignedResult :=
  assemble_misaligned _ _ _ (Or.inl (by decide))

theorem closenessScore_eq (E : List (Nat × Nat)) (N v r s : Nat)
    (h1 : (reachSet E N v).length = r) (h2 : distSum E N v = s) (hr : r ≠ 0) :
    closenessScore E N v = ((r : ℚ) / ((N : ℚ) - 1)) * ((r : ℚ) / (s : ℚ)) := by
  subst h1
  subst h2
  simp [closenessScore, hr]

/-- C1: for a node with at least one reachable peer, the closeness score
equals `(|R(v)| / (N - 1)) * (|R(v)| / sum of d(v,u) over u in R(v))`, where
`R(v)` is the set of reachable peers and `d(v,u)` the BFS hop distance. -/
theorem closeness_formula (E : List (Nat × Nat)) (N v : Nat)
    (h : reachSet E N v ≠ []) :
    closenessScore E N v =
      (((reachSet E N v).toFinset.card : ℚ) / ((N : ℚ) - 1)) *
        (((reachSet E N v).toFinset.card : ℚ) /
          (∑ u ∈ (reachSet E N v).toFinset, ((hopDist E N v u).getD 0 : ℚ))) := by
  have hnd := reachSet_nodup E N v
  have hcard : (reachSet E N v).toFinset.card = (reachSet E N v).length :=
    List.toFinset_card_of_nodup hnd
  have hsum : ∑ u ∈ (reachSet E N v).toFinset, ((hopDist E N v u).getD 0 : ℚ)
      = ((distSum E N v : ℚ)) := by
    rw [List.sum_toFinset _ hnd, distSum, Nat.cast_list_sum, List.map_map]
    rfl
  have hlen : (reachSet E N v).length ≠ 0 := by
    simpa [List.length_eq_zero] using h
  rw [hcard, hsum]
  exact closenessScore_eq E N v _ _ rfl rfl hlen

/-- Witness for C1 at a concrete input: the two-node graph with one edge. -/
theorem closeness_formula_witness :
    closenessScore [(0, 1)] 2 0 =
      (((reachSet [(0, 1)] 2 0).toFinset.card : ℚ) / (((2 : Nat) : ℚ) - 1)) *
        (((reachSet [(0, 1)] 2 0).toFinset.card : ℚ) /
          (∑ u ∈ (reachSet [(0, 1)] 2 0).toFinset, ((hopDist [(0, 1)] 2 0 u).getD 0 : ℚ))) :=
  closeness_formula [(0, 1)] 2 0 (by decide)

/-- C5: every score produced by `directed_closeness`, on every graph and
every directionality mode, lies in the closed interval `[0, 1]`. -/
theorem closeness_scores_in_unit_interval (g : Graph) (mode : Mode) (q : ℚ)
    (hq : q ∈ directed_closeness g mode) : 0 ≤ q ∧ q ≤ 1 := by
  rcases List.mem_map.mp hq with ⟨v, hv, rfl⟩
  have hvN : v < g.ids.length := List.mem_range.mp hv
  by_cases hr : (reachSet (orient g.edges mode) g.ids.length v).length = 0
  · simp [closenessScore, hr]
  · have hr1 : 1 ≤ (reachSet (orient g.edges mode) g.ids.length v).length :=
      Nat.one_le_iff_ne_zero.mpr hr
    have hS := length_le_distSum (orient g.edges mode) g.ids.length v
    have hle := reachSet_length_le (orient g.edges mode) g.ids.length v hvN
    have hscore := closenessScore_eq (orient g.edges mode) g.ids.length v _ _ rfl rfl hr
    rw [hscore]
    have hrq : (1 : ℚ) ≤ ((reachSet (orient g.edges mode) g.ids.length v).length : ℚ) := by
      exact_mod_cast hr1
    have hSq : ((reachSet (orient g.edges mode) g.ids.length v).length : ℚ) ≤
        ((distSum (orient g.edges mode) g.ids.length v : ℚ)) := by exact_mod_cast hS
    have hN1 : 1 ≤ g.ids.length := by omega
    have hNq : ((reachSet (orient g.edges mode) g.ids.length v).length : ℚ) ≤
        ((g.ids.length : ℚ) - 1) := by
      have hcast : (((g.ids.length - 1 : Nat)) : ℚ) = ((g.ids.length : ℚ) - 1) := by
        push_cast [Nat.cast_sub hN1]
        ring
      rw [← hcast]
      exact_mod_cast hle
    have hNpos : (0 : ℚ) < ((g.ids.length : ℚ) - 1) := lt_of_lt_of_le one_pos (hrq.trans hNq)
    have hSpos : (0 : ℚ) <
        ((distSum (orient g.edges mode) g.ids.length v : ℚ)) :=
      lt_of_lt_of_le one_pos (hrq.trans hSq)
    have hq0 : (0 : ℚ) ≤ ((reachSet (orient g.edges mode) g.ids.length v).length : ℚ) :=
      Nat.cast_nonneg _
    constructor
    · exact mul_nonneg (div_nonneg hq0 hNpos.le) (div_nonneg hq0 hSpos.le)
    · exact mul_le_one₀ ((div_le_one hNpos).mpr hNq)
        (div_nonneg hq0 hSpos.le) ((div_le_one hSpos).mpr hSq)

/-- Witness for C5 at a concrete input: the two-node graph with one edge
under mode `out`; the score of node `0` lies in `[0, 1]`. -/
theorem closeness_scores_in_unit_interval_witness :
    0 ≤ closenessScore (orient [(0, 1)] Mode.out) 2 0 ∧
      closenessScore (orient [(0, 1)] Mode.out) 2 0 ≤ 1 :=
  closeness_scores_in_unit_interval { ids := ["a", "b"], edges := [(0, 1)] } Mode.out _
    (by simp [directed_closeness, List.range_succ])

/-! ## Edge resolution errors -/

theorem index_of_eq_none (ids : List String) (s : String) (h : s ∉ ids) :
    index_of ids s = none := by
  rw [index_of, List.findIdx?_eq_none_iff]
  intro x hx
  exact beq_eq_false_iff_ne.mpr (fun hxs => h (hxs ▸ hx))

theorem resolveEdge_error_shape (ids : List String) (e : Edge) (err : EngineError)
    (h : resolveEdge ids e = Except.error err) :
    ∃ s, err = EngineError.UnknownIdentifier s := by
  cases h1 : index_of ids e.source with
  | none =>
    simp only [resolveEdge, h1] at h
    simp at h
    exact ⟨e.source, h.symm⟩
  | some a =>
    cases h2 : index_of ids e.target with
    | none =>
      simp only [resolveEdge, h1, h2] at h
      simp at h
      exact ⟨e.target, h.symm⟩
    | some b =>
      simp [resolveEdge, h1, h2] at h

theorem resolveEdge_error_of_bad (ids : List String) (e : Edge)
    (h : e.source ∉ ids ∨ e.target ∉ ids) :
    ∃ s, resolveEdge ids e = Except.error (EngineError.UnknownIdentifier s) := by
  rcases h with h | h
  · exact ⟨e.source, by simp [resolveEdge, index_of_eq_none ids _ h]⟩
  · cases hs : index_of ids e.source with
    | none => exact ⟨e.source, by simp [resolveEdge, hs]⟩
    | some a => exact ⟨e.target, by simp [resolveEdge, hs, index_of_eq_none ids _ h]⟩

theorem resolveAll_error_shape (ids : List String) (edges : List Edge) (err : EngineError)
    (h : resolveAll ids edges = Except.error err) :
    ∃ s, err = EngineError.UnknownIdentifier s := by
  induction edges with
  | nil => simp [resolveAll] at h
  | cons a rest ih =>
    rw [resolveAll] at h
    cases hre : resolveEdge ids a with
    | error err2 =>
      rw [hre] at h
      simp at h
      rcases resolveEdge_error_shape ids a err2 hre with ⟨s, rfl⟩
      exact ⟨s, h.symm⟩
    | ok p =>
      rw [hre] at h
      cases hra : resolveAll ids rest with
      | error err2 =>
        rw [hra] at h
        simp at h
        subst h
        exact ih hra
      | ok ps =>
        rw [hra] at h
        simp at h

theorem resolveAll_error_of_mem (ids : List String) (edges : List Edge) (e : Edge)
    (he : e ∈ edges) (err0 : EngineError) (h : resolveEdge ids e = Except.error err0) :
    ∃ err, resolveAll ids edges = Except.error err := by
  induction edges with
  | nil => cases he
  | cons a rest ih =>
    rcases List.mem_cons.mp he with rfl | hmem
    · exact ⟨err0, by simp [resolveAll, h]⟩
    · cases hre : resolveEdge ids a with
      | error err2 => exact ⟨err2, by simp [resolveAll, hre]⟩
      | ok p =>
        rcases ih hmem with ⟨err, hih⟩
        exact ⟨err, by simp [resolveAll, hre, hih]⟩

/-- C3: an edge table containing an edge whose source or target identifier
is absent from the node table makes `build_graph` fail with the fatal
`UnknownIdentifier` error; the offending edge is never silently dropped. -/
theorem unknown_identifier_fatal (nodes : List String) (edges : List Edge)
    (e : Edge) (he : e ∈ edges) (hbad : e.source ∉ nodes ∨ e.target ∉ nodes) :
    ∃ s, build_graph nodes edges = Except.error (EngineError.UnknownIdentifier s) := by
  rcases resolveEdge_error_of_bad nodes e hbad with ⟨s0, hre⟩
  rcases resolveAll_error_of_mem nodes edges e he _ hre with ⟨err, hall⟩
  rcases resolveAll_error_shape nodes edges err hall with ⟨s, rfl⟩
  exact ⟨s, by simp [build_graph, hall]⟩

/-- Witness for C3 at a concrete input: one node `"a"`, one edge whose
target `"c"` is unknown. -/
theorem unknown_identifier_fatal_witness :
    ∃ s, build_graph ["a"] [{ source := "a", target := "c", type := "x" }] =
      Except.error (EngineError.UnknownIdentifier s) :=
  unknown_identifier_fatal ["a"] [{ source := "a", target := "c", type := "x" }]
    { source := "a", target := "c", type := "x" } (by simp)
    (Or.inr (by simp))

/-! ## Structural facts about graph building and the output pipeline -/

theorem build_graph_ok (nodes : List String) (edges : List Edge) (g : Graph)
    (h : build_graph nodes edges = Except.ok g) :
    g.ids = nodes ∧ resolveAll nodes edges = Except.ok g.edges := by
  cases hra : resolveAll nodes edges with
  | error err => simp [build_graph, hra] at h
  | ok ps =>
    simp only [build_graph, hra] at h
    cases h
    exact ⟨rfl, rfl⟩

theorem resolveAll_sublist (ids : List String) (edges1 edges2 : List Edge)
    (hsub : edges1.Sublist edges2) (ps2 : List (Nat × Nat))
    (h : resolveAll ids edges2 = Except.ok ps2) :
    ∃ ps1, resolveAll ids edges1 = Except.ok ps1 ∧ ps1.Sublist ps2 := by
  induction hsub generalizing ps2 with
  | slnil =>
    simp only [resolveAll] at h
    cases h
    exact ⟨[], rfl, List.Sublist.refl []⟩
  | @cons l1 l2 a hsub ih =>
    rw [resolveAll] at h
    cases hre : resolveEdge ids a with
    | error err => rw [hre] at h; simp at h
    | ok p =>
      rw [hre] at h
      cases hrl : resolveAll ids l2 with
      | error err => rw [hrl] at h; simp at h
      | ok ps =>
        rw [hrl] at h
        simp at h
        subst h
        rcases ih ps hrl with ⟨ps1, h1, hsl⟩
        exact ⟨ps1, h1, hsl.trans (List.sublist_cons_self p ps)⟩
  | @cons₂ l1 l2 a hsub ih =>
    rw [resolveAll] at h
    cases hre : resolveEdge ids a with
    | error err => rw [hre] at h; simp at h
    | ok p =>
      rw [hre] at h
      cases hrl : resolveAll ids l2 with
      | error err => rw [hrl] at h; simp at h
      | ok ps =>
        rw [hrl] at h
        simp at h
        subst h
        rcases ih ps hrl with ⟨ps1, h1, hsl⟩
        refine ⟨p :: ps1, ?_, hsl.cons₂ p⟩
        rw [resolveAll, hre, h1]

/-- C7: building the view that excludes `type = "road"` edges from a node
table that builds successfully yields a graph with the same identifier list
(hence the same node count and identifier set); only the edge set shrinks
(it is a sublist of the all-edges view's edge set), and in this pure model
building one view cannot mutate the other. -/
theorem road_view_preserves_nodes (nodes : List String) (edges : List Edge) (g : Graph)
    (h : build_graph nodes edges = Except.ok g) :
    ∃ g2, build_graph nodes (edges.filter (fun e => e.type != "road")) = Except.ok g2 ∧
      g2.ids = g.ids ∧ g2.ids.length = g.ids.length ∧ g2.edges.Sublist g.edges := by
  rcases build_graph_ok nodes edges g h with ⟨hids, hra⟩
  rcases resolveAll_sublist nodes (edges.filter (fun e => e.type != "road")) edges
    (List.filter_sublist edges) g.edges hra with ⟨ps1, h1, hsl⟩
  refine ⟨{ ids := nodes, edges := ps1 }, ?_, ?_, ?_, ?_⟩
  · simp [build_graph, h1]
  · simp [hids]
  · simp [hids]
  · simpa using hsl

/-- Witness for C7 at a concrete input: two nodes, one road edge and one
river edge. -/
theorem road_view_preserves_nodes_witness :
    ∃ g2, build_graph ["a", "b"]
        ([{ source := "a", target := "b", type := "road" },
          { source := "b", target := "a", type := "river" }].filter
            (fun e => e.type != "road")) = Except.ok g2 ∧
      g2.ids = (Graph.mk ["a", "b"] [(0, 1), (1, 0)]).ids ∧
      g2.ids.length = (Graph.mk ["a", "b"] [(0, 1), (1, 0)]).ids.length ∧
      g2.edges.Sublist (Graph.mk ["a", "b"] [(0, 1), (1, 0)]).edges :=
  road_view_preserves_nodes ["a", "b"]
    [{ source := "a", target := "b", type := "road" },
     { source := "b", target := "a", type := "river" }]
    (Graph.mk ["a", "b"] [(0, 1), (1, 0)]) (by rfl)

theorem assemble_ok (nodes : List NodeRow) (r1 r2 : List ℚ) (out : List OutRow)
    (h : assemble nodes r1 r2 = Except.ok out) :
    r1.length = nodes.length ∧ r2.length = nodes.length ∧
      out = (nodes.zip (r1.zip r2)).map
        (fun p => OutRow.mk p.1.id p.1.attrs p.2.1 p.2.2) := by
  by_cases hc : r1.length = nodes.length ∧ r2.length = nodes.length
  · refine ⟨hc.1, hc.2, ?_⟩
    simp only [assemble, if_pos hc] at h
    cases h
    rfl
  · simp [assemble, hc] at h

theorem directed_closeness_length (g : Graph) (mode : Mode) :
    (directed_closeness g mode).length = g.ids.length := by
  simp [directed_closeness]

theorem main_ok (nodes : List NodeRow) (edges : List Edge) (mode : Mode) (out : List OutRow)
    (h : main nodes edges mode = Except.ok out) :
    ∃ g_all g_no_road,
      build_graph (nodes.map NodeRow.id) edges = Except.ok g_all ∧
      build_graph (nodes.map NodeRow.id) (edges.filter (fun e => e.type != "road")) =
        Except.ok g_no_road ∧
      out = (nodes.zip ((directed_closeness g_all mode).zip
          (directed_closeness g_no_road mode))).map
        (fun p => OutRow.mk p.1.id p.1.attrs p.2.1 p.2.2) := by
  unfold main at h
  cases h1 : build_graph (nodes.map NodeRow.id) edges with
  | error err => rw [h1] at h; simp at h
  | ok g_all =>
    rw [h1] at h
    cases h2 : build_graph (nodes.map NodeRow.id)
        (edges.filter (fun e => e.type != "road")) with
    | error err => rw [h2] at h; simp at h
    | ok g_no_road =>
      rw [h2] at h
      simp only [] at h
      rcases assemble_ok _ _ _ _ h with ⟨-, -, hout⟩
      exact ⟨g_all, g_no_road, rfl, rfl, hout⟩

/-- C4: a successful run emits exactly one output row per input node row, in
exactly the input node table's row order, with each node's id and attribute
columns unchanged (the two added columns per structural view are the score
fields of `OutRow`); this holds for every edge table, hence in particular
for every permutation of the edge rows. -/
theorem output_rows_aligned (nodes : List NodeRow) (edges : List Edge) (mode : Mode)
    (out : List OutRow) (h : main nodes edges mode = Except.ok out) :
    out.length = nodes.length ∧
      ∀ i (hi : i < out.length) (hi2 : i < nodes.length),
        (out.get ⟨i, hi⟩).id = (nodes.get ⟨i, hi2⟩).id ∧
        (out.get ⟨i, hi⟩).attrs = (nodes.get ⟨i, hi2⟩).attrs := by
  rcases main_ok nodes edges mode out h with ⟨g1, g2, hb1, hb2, hout⟩
  have hl1 : (directed_closeness g1 mode).length = nodes.length := by
    rw [directed_closeness_length, (build_graph_ok _ _ _ hb1).1, List.length_map]
  have hl2 : (directed_closeness g2 mode).length = nodes.length := by
    rw [directed_closeness_length, (build_graph_ok _ _ _ hb2).1, List.length_map]
  subst hout
  constructor
  · simp [List.length_zip, hl1, hl2]
  · intro i hi hi2
    constructor <;> simp [List.get_eq_getElem, List.getElem_map, List.getElem_zip]

/-- Witness for C4 at a concrete input: two node rows and an empty edge
table. -/
theorem output_rows_aligned_witness :
    ([OutRow.mk "a" ["x"] 0 0, OutRow.mk "b" ["y"] 0 0].length =
        [NodeRow.mk "a" ["x"], NodeRow.mk "b" ["y"]].length) ∧
      ∀ i (hi : i < [OutRow.mk "a" ["x"] 0 0, OutRow.mk "b" ["y"] 0 0].length)
        (hi2 : i < [NodeRow.mk "a" ["x"], NodeRow.mk "b" ["y"]].length),
        (([OutRow.mk "a" ["x"] 0 0, OutRow.mk "b" ["y"] 0 0]).get ⟨i, hi⟩).id =
          (([NodeRow.mk "a" ["x"], NodeRow.mk "b" ["y"]]).get ⟨i, hi2⟩).id ∧
        (([OutRow.mk "a" ["x"] 0 0, OutRow.mk "b" ["y"] 0 0]).get ⟨i, hi⟩).attrs =
          (([NodeRow.mk "a" ["x"], NodeRow.mk "b" ["y"]]).get ⟨i, hi2⟩).attrs :=
  output_rows_aligned [NodeRow.mk "a" ["x"], NodeRow.mk "b" ["y"]] [] Mode.out
    [OutRow.mk "a" ["x"] 0 0, OutRow.mk "b" ["y"] 0 0] (by rfl)

theorem map_proj_assemble (nodes : List NodeRow) (r1 r2 : List ℚ)
    (h1 : r1.length = nodes.length) (h2 : r2.length = nodes.length) :
    ((nodes.zip (r1.zip r2)).map
        (fun p => OutRow.mk p.1.id p.1.attrs p.2.1 p.2.2)).map
      OutRow.closeness_all_edges = r1 ∧
    ((nodes.zip (r1.zip r2)).map
        (fun p => OutRow.mk p.1.id p.1.attrs p.2.1 p.2.2)).map
      OutRow.closeness_no_road_edges = r2 := by
  induction nodes generalizing r1 r2 with
  | nil =>
    rw [List.length_nil] at h1 h2
    rw [List.length_eq_zero.mp h1, List.length_eq_zero.mp h2]
    exact ⟨rfl, rfl⟩
  | cons n rest ih =>
    cases r1 with
    | nil => simp at h1
    | cons a as =>
      cases r2 with
      | nil => simp at h2
      | cons b bs =>
        have ha : as.length = rest.length := by simpa using h1
        have hb : bs.length = rest.length := by simpa using h2
        rcases ih as bs ha hb with ⟨ih1, ih2⟩
        simp only [List.zip_cons_cons, List.map_cons]
        exact ⟨by rw [ih1], by rw [ih2]⟩

/-- C10: both output score columns of a successful run are computed under
the one supplied directionality mode — the column for the all-edges view and
the column for the no-road view are exactly `directed_closeness` of the
respective graphs at that same mode. -/
theorem both_views_same_mode (nodes : List NodeRow) (edges : List Edge) (mode : Mode)
    (out : List OutRow) (h : main nodes edges mode = Except.ok out) :
    ∃ g_all g_no_road,
      build_graph (nodes.map NodeRow.id) edges = Except.ok g_all ∧
      build_graph (nodes.map NodeRow.id) (edges.filter (fun e => e.type != "road")) =
        Except.ok g_no_road ∧
      out.map OutRow.closeness_all_edges = directed_closeness g_all mode ∧
      out.map OutRow.closeness_no_road_edges = directed_closeness g_no_road mode := by
  rcases main_ok nodes edges mode out h with ⟨g1, g2, hb1, hb2, hout⟩
  have hl1 : (directed_closeness g1 mode).length = nodes.length := by
    rw [directed_closeness_length, (build_graph_ok _ _ _ hb1).1, List.length_map]
  have hl2 : (directed_closeness g2 mode).length = nodes.length := by
    rw [directed_closeness_length, (build_graph_ok _ _ _ hb2).1, List.length_map]
  subst hout
  rcases map_proj_assemble nodes _ _ hl1 hl2 with ⟨hp1, hp2⟩
  exact ⟨g1, g2, hb1, hb2, hp1, hp2⟩

/-- Witness for C10 at a concrete input: two node rows and an empty edge
table under mode `out`. -/
theorem both_views_same_mode_witness :
    ∃ g_all g_no_road,
      build_graph ([NodeRow.mk "a" ["x"], NodeRow.mk "b" ["y"]].map NodeRow.id) [] =
        Except.ok g_all ∧
      build_graph ([NodeRow.mk "a" ["x"], NodeRow.mk "b" ["y"]].map NodeRow.id)
        (([] : List Edge).filter (fun e => e.type != "road")) = Except.ok g_no_road ∧
      ([OutRow.mk "a" ["x"] 0 0, OutRow.mk "b" ["y"] 0 0].map
        OutRow.closeness_all_edges) = directed_closeness g_all Mode.out ∧
      ([OutRow.mk "a" ["x"] 0 0, OutRow.mk "b" ["y"] 0 0].map
        OutRow.closeness_no_road_edges) = directed_closeness g_no_road Mode.out :=
  both_views_same_mode [NodeRow.mk "a" ["x"], NodeRow.mk "b" ["y"]] [] Mode.out
    [OutRow.mk "a" ["x"] 0 0, OutRow.mk "b" ["y"] 0 0] (by rfl)

/-! ## Set-based reachability: duplicates and self-loops are harmless -/

theorem reachb_congr (E1 E2 : List (Nat × Nat)) (hE : ∀ x, x ∈ E1 ↔ x ∈ E2) :
    ∀ (n v u : Nat), reachb E1 n v u = reachb E2 n v u := by
  intro n
  induction n with
  | zero => intro v u; rfl
  | succ n ih =>
    intro v u
    rw [reachb, reachb, Bool.eq_iff_iff]
    simp only [Bool.or_eq_true, List.any_eq_true, Bool.and_eq_true, ih, hE]

theorem hopDist_congr (E1 E2 : List (Nat × Nat)) (hE : ∀ x, x ∈ E1 ↔ x ∈ E2)
    (N v u : Nat) : hopDist E1 N v u = hopDist E2 N v u := by
  unfold hopDist
  congr 1
  funext n
  rw [reachb_congr E1 E2 hE]

theorem closenessScore_congr (E1 E2 : List (Nat × Nat)) (hE : ∀ x, x ∈ E1 ↔ x ∈ E2)
    (N v : Nat) : closenessScore E1 N v = closenessScore E2 N v := by
  have hd : ∀ u, hopDist E1 N v u = hopDist E2 N v u :=
    fun u => hopDist_congr E1 E2 hE N v u
  have hrs : reachSet E1 N v = reachSet E2 N v := by
    unfold reachSet
    congr 1
    funext u
    rw [hd]
  unfold closenessScore distSum
  rw [hrs]
  simp only [hd]

theorem index_of_isSome (ids : List String) (s : String) (h : s ∈ ids) :
    ∃ i, index_of ids s = some i := by
  unfold index_of
  exact ⟨ids.findIdx (fun t => t == s),
    List.findIdx?_eq_some_of_exists ⟨s, h, beq_self_eq_true s⟩⟩

theorem resolveAll_ok_of_valid (ids : List String) (edges : List Edge)
    (h : ∀ e ∈ edges, e.source ∈ ids ∧ e.target ∈ ids) :
    ∃ ps, resolveAll ids edges = Except.ok ps := by
  induction edges with
  | nil => exact ⟨[], rfl⟩
  | cons e rest ih =>
    rcases h e (List.mem_cons_self e rest) with ⟨hs, ht⟩
    rcases index_of_isSome ids e.source hs with ⟨a, ha⟩
    rcases index_of_isSome ids e.target ht with ⟨b, hb⟩
    rcases ih (fun x hx => h x (List.mem_cons_of_mem e hx)) with ⟨ps, hps⟩
    refine ⟨(a, b) :: ps, ?_⟩
    rw [resolveAll]
    have hre : resolveEdge ids e = Except.ok (a, b) := by
      simp [resolveEdge, ha, hb]
    rw [hre, hps]

/-- C9: self-loops and parallel edges are harmless — graph construction
succeeds whenever both endpoints of every edge (self-loops and duplicates
included) are known identifiers; a node is never a member of its own
reachable set `R(v)`; and adding a duplicate of an edge already present
changes no closeness score under any mode (reachability and distances are
set-based, not multiplicity-based). -/
theorem selfloops_and_parallel_edges :
    (∀ (nodes : List String) (edges : List Edge),
      (∀ e ∈ edges, e.source ∈ nodes ∧ e.target ∈ nodes) →
      ∃ g, build_graph nodes edges = Except.ok g) ∧
    (∀ (E : List (Nat × Nat)) (N v : Nat), v ∉ reachSet E N v) ∧
    (∀ (ids : List String) (E : List (Nat × Nat)) (e : Nat × Nat) (mode : Mode),
      e ∈ E →
      directed_closeness { ids := ids, edges := e :: E } mode =
        directed_closeness { ids := ids, edges := E } mode) := by
  refine ⟨?_, ?_, ?_⟩
  · intro nodes edges h
    rcases resolveAll_ok_of_valid nodes edges h with ⟨ps, hps⟩
    exact ⟨{ ids := nodes, edges := ps }, by simp [build_graph, hps]⟩
  · intro E N v hv
    rcases (mem_reachSet E N v v).mp hv with ⟨-, hne, -⟩
    exact hne rfl
  · intro ids E e mode he
    have hswap : (e.2, e.1) ∈ swapEdges E := List.mem_map.mpr ⟨e, he, rfl⟩
    have hmem : ∀ x, x ∈ orient (e :: E) mode ↔ x ∈ orient E mode := by
      intro x
      cases mode with
      | out =>
        simp only [orient, List.mem_cons]
        exact or_iff_right_iff_imp.mpr (fun hx => hx ▸ he)
      | inn =>
        rw [orient, orient,
          show swapEdges (e :: E) = (e.2, e.1) :: swapEdges E from rfl, List.mem_cons]
        exact or_iff_right_iff_imp.mpr (fun hx => hx ▸ hswap)
      | all =>
        rw [orient, orient,
          show swapEdges (e :: E) = (e.2, e.1) :: swapEdges E from rfl]
        simp only [List.mem_append, List.mem_cons]
        constructor
        · rintro ((rfl | h) | (rfl | h))
          exacts [Or.inl he, Or.inl h, Or.inr hswap, Or.inr h]
        · rintro (h | h)
          exacts [Or.inl (Or.inr h), Or.inr (Or.inr h)]
    unfold directed_closeness
    exact List.map_congr_left
      (fun v _ => closenessScore_congr _ _ hmem _ v)

/-- Witness for C9 at a concrete input: a graph with a self-loop and a
duplicated edge. -/
theorem selfloops_and_parallel_edges_witness :
    (∃ g, build_graph ["a", "b"]
      [{ source := "a", target := "a", type := "x" },
       { source := "a", target := "b", type := "x" },
       { source := "a", target := "b", type := "x" }] = Except.ok g) ∧
    (0 : Nat) ∉ reachSet [(0, 0), (0, 1)] 2 0 ∧
    directed_closeness { ids := ["a", "b"], edges := (0, 1) :: [(0, 0), (0, 1)] } Mode.out =
      directed_closeness { ids := ["a", "b"], edges := [(0, 0), (0, 1)] } Mode.out :=
  ⟨selfloops_and_parallel_edges.1 _ _ (by decide),
   selfloops_and_parallel_edges.2.1 [(0, 0), (0, 1)] 2 0,
   selfloops_and_parallel_edges.2.2 ["a", "b"] [(0, 0), (0, 1)] (0, 1) Mode.out (by decide)⟩

/-! ## Directed cycle graphs -/

theorem find?_range_eq_some (p : Nat → Bool) (N d : Nat) (hdN : d < N)
    (hp : p d = true) (hmin : ∀ m, m < d → p m = false) :
    (List.range N).find? p = some d := by
  have h0 : (List.range d).find? p = none :=
    List.find?_eq_none.mpr (fun x hx => by
      simp [hmin x (List.mem_range.mp hx)])
  have h1 : (List.range (d + 1)).find? p = some d := by
    rw [List.range_succ, List.find?_append, h0]
    simp [List.find?, hp]
  have hN : N = (d + 1) + (N - (d + 1)) := by omega
  rw [hN, List.range_add, List.find?_append, h1]
  rfl

theorem reachb_cycle_iff (k : Nat) (hk : 0 < k) :
    ∀ (n v u : Nat), v < k →
      (reachb (cycleGraph k).edges n v u = true ↔ ∃ m, m ≤ n ∧ u = (v + m) % k) := by
  intro n
  induction n with
  | zero =>
    intro v u hv
    rw [reachb_zero_iff]
    constructor
    · rintro rfl
      exact ⟨0, Nat.le_refl 0, by rw [Nat.add_zero, Nat.mod_eq_of_lt hv]⟩
    · rintro ⟨m, hm, rfl⟩
      have hm0 : m = 0 := Nat.le_zero.mp hm
      subst hm0
      rw [Nat.add_zero, Nat.mod_eq_of_lt hv]
  | succ n ih =>
    intro v u hv
    rw [reachb]
    simp only [Bool.or_eq_true, List.any_eq_true, Bool.and_eq_true, beq_iff_eq]
    constructor
    · rintro (h | ⟨e, he, hr, rfl⟩)
      · rcases (ih v u hv).mp h with ⟨m, hm, rfl⟩
        exact ⟨m, Nat.le_succ_of_le hm, rfl⟩
      · rcases List.mem_map.mp he with ⟨i, hi, rfl⟩
        rcases (ih v i hv).mp hr with ⟨m, hm, rfl⟩
        refine ⟨m + 1, Nat.succ_le_succ hm, ?_⟩
        rw [Nat.mod_add_mod, Nat.add_assoc]
    · rintro ⟨m, hm, rfl⟩
      rcases Nat.lt_or_ge m (n + 1) with hlt | hge
      · exact Or.inl ((ih v _ hv).mpr ⟨m, Nat.lt_succ_iff.mp hlt, rfl⟩)
      · have hmeq : m = n + 1 := Nat.le_antisymm hm hge
        subst hmeq
        refine Or.inr ⟨((v + n) % k, ((v + n) % k + 1) % k), ?_, ?_, ?_⟩
        · exact List.mem_map.mpr ⟨(v + n) % k, List.mem_range.mpr (Nat.mod_lt _ hk), rfl⟩
        · exact (ih v _ hv).mpr ⟨n, Nat.le_refl n, rfl⟩
        · rw [Nat.mod_add_mod, Nat.add_assoc]

theorem hopDist_cycle (k v u : Nat) (hk : 0 < k) (hv : v < k) (hu : u < k) :
    hopDist (cycleGraph k).edges k v u = some ((u + (k - v)) % k) := by
  have hd0 : (u + (k - v)) % k < k := Nat.mod_lt _ hk
  have hchar : u = (v + (u + (k - v)) % k) % k := by
    rw [Nat.add_mod_mod]
    have hvk : v + (u + (k - v)) = u + k := by omega
    rw [hvk, Nat.add_mod_right, Nat.mod_eq_of_lt hu]
  apply find?_range_eq_some
  · exact hd0
  · exact (reachb_cycle_iff k hk _ v u hv).mpr
      ⟨(u + (k - v)) % k, Nat.le_refl _, hchar⟩
  · intro m hm
    by_contra hcon
    have htrue : reachb (cycleGraph k).edges m v u = true := by
      cases hb : reachb (cycleGraph k).edges m v u
      · exact absurd hb hcon
      · rfl
    rcases (reachb_cycle_iff k hk m v u hv).mp htrue with ⟨mm, hmm, hue⟩
    have hmod : (v + mm) % k = (v + (u + (k - v)) % k) % k := by
      rw [← hue, ← hchar]
    have h2 : mm % k = ((u + (k - v)) % k) % k := Nat.ModEq.add_left_cancel' v hmod
    have hmmk : mm < k := Nat.lt_trans (Nat.lt_of_le_of_lt hmm hm) hd0
    rw [Nat.mod_eq_of_lt hmmk, Nat.mod_eq_of_lt hd0] at h2
    omega

theorem reachSet_cycle (k v : Nat) (hk : 0 < k) (hv : v < k) :
    reachSet (cycleGraph k).edges k v = (List.range k).filter (fun u => u != v) := by
  unfold reachSet
  apply List.filter_congr
  intro u hu
  rw [hopDist_cycle k v u hk hv (List.mem_range.mp hu)]
  simp

theorem length_filter_ne (k v : Nat) (hv : v < k) :
    ((List.range k).filter (fun u => u != v)).length = k - 1 := by
  induction k with
  | zero => exact absurd hv (Nat.not_lt_zero v)
  | succ n ih =>
    rw [List.range_succ, List.filter_append, List.length_append]
    by_cases hlt : v < n
    · have hnv : (n != v) = true := bne_iff_ne.mpr (Nat.ne_of_gt hlt)
      have h1 : (List.filter (fun u => u != v) [n]).length = 1 := by
        simp [hnv]
      rw [ih hlt, h1]
      omega
    · have heq : v = n := by omega
      subst heq
      have hall : (List.range v).filter (fun u => u != v) = List.range v :=
        List.filter_eq_self.mpr
          (fun a ha => bne_iff_ne.mpr (Nat.ne_of_lt (List.mem_range.mp ha)))
      have h1 : (List.filter (fun u => u != v) [v]).length = 0 := by simp
      rw [hall, h1, List.length_range]
      omega

theorem toFinset_list_range (n : Nat) : (List.range n).toFinset = Finset.range n := by
  ext a
  simp [List.mem_toFinset, List.mem_range, Finset.mem_range]

theorem distSum_cycle (k v : Nat) (hk : 0 < k) (hv : v < k) :
    distSum (cycleGraph k).edges k v = ∑ j ∈ Finset.range k, j := by
  have hnd : ((List.range k).filter (fun u => u != v)).Nodup :=
    (List.nodup_range k).filter _
  rw [distSum, reachSet_cycle k v hk hv, ← List.sum_toFinset _ hnd]
  rw [List.toFinset_filter, toFinset_list_range]
  have herase : (Finset.range k).filter (fun a => ((a != v) : Bool) = true) =
      (Finset.range k).erase v := by
    ext a
    simp [Finset.mem_filter, Finset.mem_erase, and_comm]
  rw [herase]
  have hdv : (hopDist (cycleGraph k).edges k v v).getD 0 = 0 := by
    rw [hopDist_cycle k v v hk hv hv]
    have hvk : v + (k - v) = k := by omega
    simp [hvk]
  rw [show (∑ u ∈ (Finset.range k).erase v, (hopDist (cycleGraph k).edges k v u).getD 0) =
      ∑ u ∈ Finset.range k, (hopDist (cycleGraph k).edges k v u).getD 0 from
    Finset.sum_erase _ hdv]
  have hfun : ∀ u ∈ Finset.range k,
      (hopDist (cycleGraph k).edges k v u).getD 0 = (u + (k - v)) % k := by
    intro u hu
    rw [hopDist_cycle k v u hk hv (Finset.mem_range.mp hu)]
    rfl
  rw [Finset.sum_congr rfl hfun]
  refine Finset.sum_nbij' (fun u => (u + (k - v)) % k) (fun w => (w + v) % k)
    ?_ ?_ ?_ ?_ ?_
  · intro a ha
    exact Finset.mem_range.mpr (Nat.mod_lt _ hk)
  · intro a ha
    exact Finset.mem_range.mpr (Nat.mod_lt _ hk)
  · intro a ha
    show ((a + (k - v)) % k + v) % k = a
    rw [Nat.mod_add_mod]
    have hak : a + (k - v) + v = a + k := by omega
    rw [hak, Nat.add_mod_right, Nat.mod_eq_of_lt (Finset.mem_range.mp ha)]
  · intro a ha
    show ((a + v) % k + (k - v)) % k = a
    rw [Nat.mod_add_mod]
    have hak : a + v + (k - v) = a + k := by omega
    rw [hak, Nat.add_mod_right, Nat.mod_eq_of_lt (Finset.mem_range.mp ha)]
  · intro a ha
    rfl

theorem directed_closeness_getD (g : Graph) (mode : Mode) (v : Nat)
    (hv : v < g.ids.length) :
    (directed_closeness g mode).getD v 0 =
      closenessScore (orient g.edges mode) g.ids.length v := by
  unfold directed_closeness
  rw [List.getD_eq_getElem?_getD, List.getElem?_map, List.getElem?_range hv]
  rfl

/-- C6: on the directed cycle of length `k ≥ 2` (where each node reaches
all `k - 1` others), every node's closeness score equals
`((k-1)/(k-1)) * ((k-1) / sum_of_distances)` with `sum_of_distances` the
total BFS hop distance to the other nodes, and the score is identical for
every pair of nodes; numerically the scores are `2/3` for `k = 3` and
`2/5` for `k = 5`. -/
theorem cycle_closeness (k v w : Nat) (hk : 2 ≤ k) (hv : v < k) (hw : w < k) :
    (directed_closeness (cycleGraph k) Mode.out).getD v 0 =
      (((k : ℚ) - 1) / ((k : ℚ) - 1)) *
        (((k : ℚ) - 1) /
          ((distSum (orient (cycleGraph k).edges Mode.out) k v : ℚ))) ∧
    (directed_closeness (cycleGraph k) Mode.out).getD v 0 =
      (directed_closeness (cycleGraph k) Mode.out).getD w 0 ∧
    directed_closeness (cycleGraph 3) Mode.out = [2/3, 2/3, 2/3] ∧
    directed_closeness (cycleGraph 5) Mode.out = [2/5, 2/5, 2/5, 2/5, 2/5] := by
  have hk0 : 0 < k := by omega
  have hlen : (cycleGraph k).ids.length = k := by simp [cycleGraph]
  have hcast : ((k - 1 : Nat) : ℚ) = (k : ℚ) - 1 := by
    rw [Nat.cast_sub (by omega), Nat.cast_one]
  have h2 : ∀ v', v' < k →
      distSum (orient (cycleGraph k).edges Mode.out) k v' = ∑ j ∈ Finset.range k, j :=
    fun v' hv' => distSum_cycle k v' hk0 hv'
  have hscore : ∀ v', v' < k →
      (directed_closeness (cycleGraph k) Mode.out).getD v' 0 =
        (((k - 1 : Nat) : ℚ) / ((k : ℚ) - 1)) *
          (((k - 1 : Nat) : ℚ) / (((∑ j ∈ Finset.range k, j : Nat)) : ℚ)) := by
    intro v' hv'
    rw [directed_closeness_getD _ _ _ (by rw [hlen]; exact hv'), hlen]
    have h1 : (reachSet (orient (cycleGraph k).edges Mode.out) k v').length = k - 1 := by
      show (reachSet (cycleGraph k).edges k v').length = k - 1
      rw [reachSet_cycle k v' hk0 hv']
      exact length_filter_ne k v' hv'
    rw [closenessScore_eq _ _ _ _ _ h1 (h2 v' hv') (by omega)]
  refine ⟨?_, ?_, ?_, ?_⟩
  · rw [hscore v hv, h2 v hv, hcast]
  · rw [hscore v hv, hscore w hw]
  · have hl3 : directed_closeness (cycleGraph 3) Mode.out =
        [closenessScore (cycleGraph 3).edges 3 0,
         closenessScore (cycleGraph 3).edges 3 1,
         closenessScore (cycleGraph 3).edges 3 2] := rfl
    rw [hl3,
      closenessScore_eq (cycleGraph 3).edges 3 0 2 3 (by decide) (by decide) (by decide),
      closenessScore_eq (cycleGraph 3).edges 3 1 2 3 (by decide) (by decide) (by decide),
      closenessScore_eq (cycleGraph 3).edges 3 2 2 3 (by decide) (by decide) (by decide)]
    norm_num
  · have hl5 : directed_closeness (cycleGraph 5) Mode.out =
        [closenessScore (cycleGraph 5).edges 5 0,
         closenessScore (cycleGraph 5).edges 5 1,
         closenessScore (cycleGraph 5).edges 5 2,
         closenessScore (cycleGraph 5).edges 5 3,
         closenessScore (cycleGraph 5).edges 5 4] := rfl
    rw [hl5,
      closenessScore_eq (cycleGraph 5).edges 5 0 4 10 (by decide) (by decide) (by decide),
      closenessScore_eq (cycleGraph 5).edges 5 1 4 10 (by decide) (by decide) (by decide),
      closenessScore_eq (cycleGraph 5).edges 5 2 4 10 (by decide) (by decide) (by decide),
      closenessScore_eq (cycleGraph 5).edges 5 3 4 10 (by decide) (by decide) (by decide),
      closenessScore_eq (cycleGraph 5).edges 5 4 4 10 (by decide) (by decide) (by decide)]
    norm_num

/-- Witness for C6 at a concrete input: the directed 3-cycle, nodes 0
and 1. -/
theorem cycle_closeness_witness :
    (directed_closeness (cycleGraph 3) Mode.out).getD 0 0 =
      ((((3 : Nat) : ℚ) - 1) / (((3 : Nat) : ℚ) - 1)) *
        ((((3 : Nat) : ℚ) - 1) /
          ((distSum (orient (cycleGraph 3).edges Mode.out) 3 0 : ℚ))) ∧
    (directed_closeness (cycleGraph 3) Mode.out).getD 0 0 =
      (directed_closeness (cycleGraph 3) Mode.out).getD 1 0 ∧
    directed_closeness (cycleGraph 3) Mode.out = [2/3, 2/3, 2/3] ∧
    directed_closeness (cycleGraph 5) Mode.out = [2/5, 2/5, 2/5, 2/5, 2/5] :=
  cycle_closeness 3 0 1 (by decide) (by decide) (by decide)

end PowerBrokers
